import Mathlib

/-!
Verification of the blind Mafia game-state engine (maFHEa/client).

The Python source is shallowly embedded: FHE ciphertexts are modelled at the
plaintext level (the homomorphic library is a trusted black box computing exact
slot-wise arithmetic on the packed integer vectors, per §4.A / §6.2 of the
design document), stateful phase code is modelled as explicit state-passing
functions, and fallible network calls are modelled by `Option` / `Except`
parameters describing each peer's observed response.
-/

namespace Mafia

/-- The four game roles (src/src/service/crypto_ops/roles.py, `ROLE_ENCODING`).
The Python code carries roles as the strings "citizen"/"mafia"/"doctor"/
"police"; the embedding uses a closed inductive type. -/
inductive Role where
  | citizen
  | mafia
  | doctor
  | police
deriving DecidableEq, Repr

/-- `ROLE_ENCODING` from src/src/service/crypto_ops/roles.py lines 7-12:
citizen=0, mafia=1, doctor=2, police=3. -/
def ROLE_ENCODING : Role → ℕ
  | .citizen => 0
  | .mafia => 1
  | .doctor => 2
  | .police => 3

/-- `ROLE_DECODING` (roles.py line 14), the inverse dictionary of
`ROLE_ENCODING`; `none` models a Python `KeyError` for an index with no role. -/
def ROLE_DECODING : ℕ → Option Role
  | 0 => some .citizen
  | 1 => some .mafia
  | 2 => some .doctor
  | 3 => some .police
  | _ => none

/-- `NUM_ROLE_TYPES = 4` (roles.py line 16). -/
def NUM_ROLE_TYPES : ℕ := 4

/-- `role_to_one_hot` (roles.py lines 19-33): a zero vector of length
`NUM_ROLE_TYPES` with a single 1 written at index `ROLE_ENCODING role`. -/
def role_to_one_hot (role : Role) : List ℤ :=
  (List.replicate NUM_ROLE_TYPES (0 : ℤ)).set (ROLE_ENCODING role) 1

/-- Scan of `one_hot_to_role` (roles.py lines 46-48): find the first slot
equal to 1, starting at index `i`. -/
def one_hot_scan : ℕ → List ℤ → Option Role
  | _, [] => none
  | i, x :: xs => if x = 1 then ROLE_DECODING i else one_hot_scan (i + 1) xs

/-- `one_hot_to_role` (roles.py lines 36-49): return the role whose slot is 1;
if no slot is 1 the Python function returns the string "unknown", modelled
here as `none`.  (For the length-4 vectors this function is used on, the
`ROLE_DECODING` lookup never raises, so `none` means exactly "unknown".) -/
def one_hot_to_role (vector : List ℤ) : Option Role :=
  one_hot_scan 0 vector

/-! ### Vector operations (src/src/service/crypto_ops/vector_operations.py)

Ciphertext arithmetic is modelled slot-wise on the packed plaintext vectors:
`EvalAdd` is slot-wise `+`, `EvalNegate` slot-wise negation, `EvalMult`
slot-wise `*`.  All vectors involved carry `size = N` relevant slots. -/

/-- `subtract_from_ones` (vector_operations.py lines 88-112): negate the
vector, then add the plaintext all-ones vector of length `size`. -/
def subtract_from_ones (size : ℕ) (vector : List ℤ) : List ℤ :=
  List.zipWith (· + ·) (vector.map (fun x => -x)) (List.replicate size (1 : ℤ))

/-- `multiply_encrypted_vectors` (vector_operations.py lines 73-85):
slot-wise homomorphic product. -/
def multiply_encrypted_vectors (vec1 vec2 : List ℤ) : List ℤ :=
  List.zipWith (· * ·) vec1 vec2

/-- `compute_killed_vector` (vector_operations.py lines 115-137):
`Killed = Attack * (1 - Heal)`. -/
def compute_killed_vector (attack_vector heal_vector : List ℤ) (size : ℕ) : List ℤ :=
  multiply_encrypted_vectors attack_vector (subtract_from_ones size heal_vector)

/-- `aggregate_encrypted_vectors` (vector_operations.py lines 50-70):
left fold of slot-wise addition; `none` models the `ValueError` raised on an
empty list. -/
def aggregate_encrypted_vectors : List (List ℤ) → Option (List ℤ)
  | [] => none
  | v :: vs => some (vs.foldl (fun acc w => List.zipWith (· + ·) acc w) v)

/-- Player record (src/src/model/player.py).  The semantically relevant
fields: `index`, `is_human`, `alive` (initially `true`); the `address`,
`name` and `encrypted_role_vector` string fields play no part in the
verified claims and are omitted. -/
structure Player where
  index : ℕ
  is_human : Bool
  alive : Bool
deriving DecidableEq, Repr

instance : Inhabited Player := ⟨⟨0, false, true⟩⟩

/-- The `alive` update loop of `execute_night_phase`
(src/src/game_phases.py lines 100-104): for each slot `i`, if
`killed_vector[i] > 0 and players[i].alive` then `players[i].alive = False`.
The two lists have equal length in every call (both are `len(players)`). -/
def apply_killed_vector (killed_vector : List ℤ) (players : List Player) : List Player :=
  List.zipWith
    (fun killed p => if 0 < killed ∧ p.alive then { p with alive := false } else p)
    killed_vector players

/-- `last_killed` recomputation of `execute_night_phase`
(game_phases.py lines 100-104): the indices appended to `self.last_killed`. -/
def night_last_killed (killed_vector : List ℤ) (players : List Player) : List ℕ :=
  (List.range killed_vector.length).filter
    (fun i => 0 < killed_vector.getD i 0 ∧ (players.getD i default).alive)

/-! ### Vote phase tally (src/src/game_phases.py, `execute_vote_phase`) -/

/-- Python's `max(vote_counts)` (game_phases.py line 168), total only on
nonempty lists (Python raises `ValueError` on an empty one; every call site
passes an `N ≥ 4` element list). -/
def max_votes (vote_counts : List ℤ) : ℤ :=
  vote_counts.foldl max (vote_counts.headD 0)

/-- `max_vote_players` (game_phases.py line 171): the indices whose count
attains the maximum. -/
def max_vote_players (vote_counts : List ℤ) : List ℕ :=
  (List.range vote_counts.length).filter
    (fun i => vote_counts.getD i 0 = max_votes vote_counts)

/-- Python's `list.index(x)` (game_phases.py lines 176 and 194): index of the
first occurrence.  Total here (the argument is a member at every call site;
Python raises otherwise). -/
def py_index : List ℤ → ℤ → ℕ
  | [], _ => 0
  | a :: l, x => if a = x then 0 else py_index l x + 1

/-- `players[e].alive = False` (game_phases.py line 195): set the `alive`
flag of the player at position `e` to `false`. -/
def set_dead : List Player → ℕ → List Player
  | [], _ => []
  | p :: ps, 0 => { p with alive := false } :: ps
  | p :: ps, Nat.succ n => p :: set_dead ps n

/-- The elimination step of `execute_vote_phase` (game_phases.py lines
168-207) as a function of the decrypted `vote_counts` vector: returns the
updated player list and the value stored in `self.last_voted_out`.
If `max_votes > 0` and there is no tie, the first index attaining the
maximum is voted out; on a tie or when `max_votes = 0` nobody is. -/
def execute_vote_tally (vote_counts : List ℤ) (players : List Player) :
    List Player × Option ℕ :=
  if 0 < max_votes vote_counts ∧ ¬ 1 < (max_vote_players vote_counts).length then
    let eliminated := py_index vote_counts (max_votes vote_counts)
    (set_dead players eliminated, some eliminated)
  else
    (players, none)

/-! ### Crypto context and game configuration
(src/src/service/crypto_ops/context.py, src/src/config.py) -/

/-- The parameters `create_openfhe_context` installs into `CCParamsBFVRNS`
(context.py lines 18-31). -/
structure BFVParams where
  plaintextModulus : ℕ
  batchSize : ℕ
  multiplicativeDepth : ℕ
  thresholdParties : ℕ
  noiseFloodingMultiparty : Bool
deriving DecidableEq, Repr

/-- `create_openfhe_context` (context.py lines 8-40): plaintext modulus
65537, `SetBatchSize(8)`, multiplicative depth 2, threshold party count
`num_parties`, `NOISE_FLOODING_MULTIPARTY` mode. -/
def create_openfhe_context (num_parties : ℕ) : BFVParams :=
  { plaintextModulus := 65537
    batchSize := 8
    multiplicativeDepth := 2
    thresholdParties := num_parties
    noiseFloodingMultiparty := true }

/-- `GAME_CONFIG["min_players"]` (config.py line 48). -/
def min_players : ℕ := 4

/-- `GAME_CONFIG["max_players"]` (config.py line 49). -/
def max_players : ℕ := 10

/-- `GAME_CONFIG["role_distribution"]` (config.py lines 52-60), with each
row in the dict's insertion order mafia, doctor, police, citizen; `none`
models a `KeyError` for an unsupported player count. -/
def role_distribution (n : ℕ) : Option (List (Role × ℕ)) :=
  match n with
  | 4 => some [(.mafia, 1), (.doctor, 1), (.police, 1), (.citizen, 1)]
  | 5 => some [(.mafia, 1), (.doctor, 1), (.police, 1), (.citizen, 2)]
  | 6 => some [(.mafia, 2), (.doctor, 1), (.police, 1), (.citizen, 2)]
  | 7 => some [(.mafia, 2), (.doctor, 1), (.police, 1), (.citizen, 3)]
  | 8 => some [(.mafia, 2), (.doctor, 1), (.police, 1), (.citizen, 4)]
  | 9 => some [(.mafia, 3), (.doctor, 1), (.police, 1), (.citizen, 4)]
  | 10 => some [(.mafia, 3), (.doctor, 1), (.police, 1), (.citizen, 5)]
  | _ => none

/-! ### Role assigner (src/src/service/dkg/role_assigner.py) -/

/-- A ciphertext, modelled by the packed integer vector it encrypts
(encryption under the joint public key and base64 serialization are
information-preserving black boxes, §4.A). -/
structure Ciphertext where
  vec : List ℤ
deriving DecidableEq, Repr

/-- The role-list construction of `generate_encrypted_roles`
(role_assigner.py lines 29-33): `roles.extend([role] * count)` over the
distribution row. -/
def build_roles (num_players : ℕ) : Option (List Role) :=
  (role_distribution num_players).map
    (fun dist => dist.flatMap (fun rc => List.replicate rc.2 rc.1))

/-- The encryption loop of `generate_encrypted_roles` (role_assigner.py
lines 36-45), applied to the (already shuffled) role list: encrypt the
one-hot encoding of each role.  `random.shuffle(roles)` (line 34) is
modelled by quantifying over an arbitrary permutation of `build_roles`
in the theorems. -/
def generate_encrypted_roles (shuffled : List Role) : List Ciphertext :=
  shuffled.map (fun role => ⟨role_to_one_hot role⟩)

/-! ### Threshold decryption (src/src/service/crypto_ops/decryption_service.py,
src/src/service/crypto_ops/threshold_decryption.py, src/src/http_server.py)

A partial decryption share is modelled by its kind — `MultipartyDecryptLead`
versus `MultipartyDecryptMain` — together with the index of the party whose
secret key produced it; the claims under verification are about which kinds
of shares reach `fusion_decrypt` and how many. -/

/-- A partial decryption share: `partial_decrypt_lead` produces
`PartialShare.lead owner` and `partial_decrypt_main` produces
`PartialShare.main owner` (threshold_decryption.py lines 5-34). -/
inductive PartialShare where
  | lead (owner : ℕ)
  | main (owner : ℕ)
deriving DecidableEq, Repr

/-- Number of lead shares in a fusion input list. -/
def lead_count (shares : List PartialShare) : ℕ :=
  shares.countP (fun s => match s with | .lead _ => true | .main _ => false)

/-- `ThresholdDecryptionService.parallel_decrypt` (decryption_service.py
lines 22-66), reduced to the list of shares handed to `fusion_decrypt`:
the requester's own lead share, followed by one main share per *other*
player whose `/investigate_parallel` response arrived and deserialized
(`resp i = some s`); a failed peer (`resp i = none`) is only warned about
and skipped — the `except`-free control flow always reaches fusion, which
the `Except.ok` wrapper records. -/
def parallel_decrypt (num_players requester : ℕ)
    (resp : ℕ → Option PartialShare) : Except Unit (List PartialShare) :=
  Except.ok
    (PartialShare.lead requester ::
      ((List.range num_players).filter (fun i => i ≠ requester)).filterMap resp)

/-- `ThresholdDecryptionService.decrypt_vector` (decryption_service.py lines
128-159), reduced to the shares handed to `fusion_decrypt`: the human's own
lead share (`partial_decrypt_lead`, line 142), then one main share per
non-human player gathered by `collect_partial_decryptions`
(network_client.py lines 161-174, a plain `asyncio.gather`: any peer failure
propagates and no fusion happens).  Each agent answers `/partial_decrypt`
with `is_lead: False`, i.e. a main share (network_client.py line 106). -/
def decrypt_vector_shares (human_index : ℕ) (players : List Player) :
    List PartialShare :=
  PartialShare.lead human_index ::
    (players.filter (fun p => !p.is_human)).map (fun p => PartialShare.main p.index)

/-- The share the human's `/investigate_parallel` endpoint returns to
another party's fan-out decryption (src/src/http_server.py lines 86-111):
the handler calls `partial_decrypt_lead` (line 100), so the contributed
share is a *lead* share. -/
def investigate_parallel_share (human_index : ℕ) : PartialShare :=
  PartialShare.lead human_index

/-- The share the human's `/relay_decrypt` endpoint appends to the relayed
partial list (src/src/http_server.py lines 27-83): the handler also calls
`partial_decrypt_lead` (line 45). -/
def relay_decrypt_endpoint_share (human_index : ℕ) : PartialShare :=
  PartialShare.lead human_index

/-- Modelled from the spec: §4.H fan-out decryption as performed by a
*requesting agent peer*, whose code is not part of this repository — the
requester computes its own lead partial locally and collects one share from
each other party's `investigate_parallel` endpoint, then fuses. -/
def spec_fanout_shares (requester : ℕ) (endpoint_share : ℕ → PartialShare)
    (others : List ℕ) : List PartialShare :=
  PartialShare.lead requester :: others.map endpoint_share

/-! ### Action collection (src/src/service/crypto_ops/action_collector.py)

The three per-player lists (vote, attack, heal) are written in lockstep —
the human slot, each agent slot and the final zero-fill always assign all
three at one index together — so they are modelled as one list of triplets
projected at the end. -/

/-- Game phase as compared against the strings `"night"` / `"vote"` in
`collect_all_actions` (action_collector.py line 65). -/
inductive Phase where
  | night
  | day
  | vote
deriving DecidableEq, Repr

/-- One player's `(vote_vector, attack_vector, heal_vector)` ciphertext
triplet. -/
structure Triplet where
  vote : Ciphertext
  attack : Ciphertext
  heal : Ciphertext
deriving DecidableEq, Repr

/-- `create_zero_vector` over `num_players` slots
(vector_operations.py lines 7-27, via `VectorFactory.create_zero_vector_str`). -/
def zero_ciphertext (num_players : ℕ) : Ciphertext :=
  ⟨List.replicate num_players (0 : ℤ)⟩

/-- The all-zero triplet used for dead or silent parties. -/
def zero_triplet (num_players : ℕ) : Triplet :=
  ⟨zero_ciphertext num_players, zero_ciphertext num_players, zero_ciphertext num_players⟩

/-- The triplet stored at the human's slot (action_collector.py lines
64-78): the real callback result only if the human is alive and the phase
is night or vote, else a zero triplet. -/
def collector_human_triplet (num_players human_player_index : ℕ)
    (players : List Player) (phase : Phase) (human_triplet : Triplet) : Triplet :=
  if (players.getD human_player_index default).alive ∧
      (phase = .night ∨ phase = .vote) then human_triplet
  else zero_triplet num_players

/-- The `Option`-valued slot lists after the human write (action_collector.py
lines 44-46 and 64-78) and the agent-result loop (lines 84-95). -/
def collector_slots (num_players human_player_index : ℕ)
    (players : List Player) (phase : Phase) (human_triplet : Triplet)
    (agent_result : ℕ → Option Triplet) : List (Option Triplet) :=
  (players.filter (fun p => !p.is_human)).foldl
    (fun acc p =>
      acc.set p.index
        (some ((agent_result p.index).getD (zero_triplet num_players))))
    ((List.replicate num_players none).set human_player_index
      (some (collector_human_triplet num_players human_player_index players
              phase human_triplet)))

/-- `ActionCollector.collect_all_actions` (action_collector.py lines
19-107): start from `num_players` empty (`none`) slots; write the human's
triplet at `human_player_index` (lines 44-46, 64-78); write each non-human
player's triplet at its index — the agent's response if the request
succeeded, else a zero triplet (lines 84-95, where `agent_result i = none`
covers both an errored and a missing request); finally replace any slot
still `none` by a zero triplet (lines 97-105).  A cached triplet (line 29)
enters `agent_result` like a fresh one (network_client.py lines 63-72). -/
def collect_all_actions (num_players human_player_index : ℕ)
    (players : List Player) (phase : Phase) (human_triplet : Triplet)
    (agent_result : ℕ → Option Triplet) : List Triplet :=
  (collector_slots num_players human_player_index players phase human_triplet
      agent_result).map
    (fun o => o.getD (zero_triplet num_players))

/-! ### Win-condition check (src/src/main.py, `GameEngine.check_win_condition`) -/

/-- Outcome of the `GET {address}/reveal_role` query to one live agent
(main.py lines 149-163): a 200 response carrying the agent's reported role,
a response with any other status code, or a raised exception (timeout or
transport failure). -/
inductive RevealOutcome where
  | ok (role : Role)
  | non200
  | failed
deriving DecidableEq, Repr

/-- One agent peer as seen by the win check: whether it is alive, the role
it actually holds, and what its `reveal_role` query returned. -/
structure WinAgent where
  alive : Bool
  role : Role
  reveal : RevealOutcome
deriving DecidableEq, Repr

/-- The counting loops of `check_win_condition` (main.py lines 135-163),
returning `(alive_mafia, alive_citizens)`: the live human counts by its own
role (lines 141-146); each live agent counts mafia or citizen from a 200
response (lines 153-160), is silently skipped on a non-200 response (the
`if response.status_code == 200` test has no `else`), and is counted as a
citizen when the query raises (lines 161-163). -/
def win_counts (human_alive : Bool) (human_role : Role) (agents : List WinAgent) :
    ℕ × ℕ :=
  let start : ℕ × ℕ :=
    if human_alive then
      if human_role = .mafia then (1, 0) else (0, 1)
    else (0, 0)
  agents.foldl
    (fun mc a =>
      if a.alive then
        match a.reveal with
        | .ok r => if r = .mafia then (mc.1 + 1, mc.2) else (mc.1, mc.2 + 1)
        | .non200 => mc
        | .failed => (mc.1, mc.2 + 1)
      else mc)
    start

/-- Winner values returned by `check_win_condition`. -/
inductive Winner where
  | citizens
  | mafia
deriving DecidableEq, Repr

/-- `GameEngine.check_win_condition` (main.py lines 124-175): `citizens`
when `alive_mafia = 0`, else `mafia` when `alive_citizens ≤ alive_mafia`,
else no winner. -/
def check_win_condition (human_alive : Bool) (human_role : Role)
    (agents : List WinAgent) : Option Winner :=
  let mc := win_counts human_alive human_role agents
  if mc.1 = 0 then some .citizens
  else if mc.2 ≤ mc.1 then some .mafia
  else none

/-- The number of live mafia among the human and the agents (by their actual
roles). -/
def live_mafia_count (human_alive : Bool) (human_role : Role)
    (agents : List WinAgent) : ℕ :=
  (if human_alive ∧ human_role = .mafia then 1 else 0) +
    (agents.filter (fun a => a.alive ∧ a.role = .mafia)).length

/-- The number of live non-mafia players (citizens, doctor, police) among
the human and the agents. -/
def live_nonmafia_count (human_alive : Bool) (human_role : Role)
    (agents : List WinAgent) : ℕ :=
  (if human_alive ∧ human_role ≠ .mafia then 1 else 0) +
    (agents.filter (fun a => a.alive ∧ a.role ≠ .mafia)).length

/-- A live agent counted into `alive_mafia` by the `check_win_condition`
loop: it answered 200 with role mafia (main.py lines 153-158). -/
def counted_mafia (a : WinAgent) : Bool :=
  a.alive && (match a.reveal with | .ok r => r == Role.mafia | _ => false)

/-- A live agent counted into `alive_citizens` by the `check_win_condition`
loop: it answered 200 with a non-mafia role, or its query raised an
exception (main.py lines 153-163); a non-200 answer is counted as neither. -/
def counted_citizen (a : WinAgent) : Bool :=
  a.alive && (match a.reveal with
              | .ok r => r != Role.mafia
              | .non200 => false
              | .failed => true)

/-- Canonical engine roster for a four-player game
(main.py lines 96-98: human player 0, agents 1..N-1, all initially alive). -/
def players4 : List Player :=
  [⟨0, true, true⟩, ⟨1, false, true⟩, ⟨2, false, true⟩, ⟨3, false, true⟩]

/-! ## Theorems -/

/-- Scanning a vector with no slot equal to 1 finds no role. -/
theorem one_hot_scan_eq_none :
    ∀ (v : List ℤ) (i : ℕ), (∀ x ∈ v, x ≠ 1) → one_hot_scan i v = none := by
  intro v
  induction v with
  | nil => intro i _; rfl
  | cons a l ih =>
    intro i h
    rw [one_hot_scan, if_neg (h a (List.mem_cons_self a l))]
    exact ih (i + 1) (fun x hx => h x (List.mem_cons_of_mem a hx))

/-- C9: `role_to_one_hot` maps each role to a length-4 vector with exactly
one 1, located at index citizen=0, mafia=1, doctor=2, police=3, and
`one_hot_to_role` inverts it; on a 4-vector with no slot equal to 1,
`one_hot_to_role` returns "unknown" (`none`). -/
theorem role_one_hot_spec :
    (ROLE_ENCODING .citizen = 0 ∧ ROLE_ENCODING .mafia = 1 ∧
      ROLE_ENCODING .doctor = 2 ∧ ROLE_ENCODING .police = 3) ∧
    (∀ r : Role,
      (role_to_one_hot r).length = 4 ∧
      (role_to_one_hot r).count 1 = 1 ∧
      (role_to_one_hot r).getD (ROLE_ENCODING r) 0 = 1 ∧
      one_hot_to_role (role_to_one_hot r) = some r) ∧
    (∀ v : List ℤ, v.length = 4 → (∀ x ∈ v, x ≠ 1) → one_hot_to_role v = none) := by
  refine ⟨by decide, ?_, ?_⟩
  · intro r; cases r <;> decide
  · intro v _ hv; exact one_hot_scan_eq_none v 0 hv

/-- Witness for `role_one_hot_spec` at role mafia and the all-zero 4-vector. -/
theorem role_one_hot_spec_witness :
    (one_hot_to_role (role_to_one_hot Role.mafia) = some Role.mafia) ∧
    (([0, 0, 0, 0] : List ℤ).length = 4) ∧
    one_hot_to_role [0, 0, 0, 0] = none :=
  ⟨(role_one_hot_spec.2.1 Role.mafia).2.2.2, by decide,
    role_one_hot_spec.2.2 [0, 0, 0, 0] (by decide) (by decide)⟩

/-- C3 (code bug): the configuration allows `N = 9` players
(`min_players ≤ 9 ≤ max_players`), yet `create_openfhe_context` always sets
a batch size of 8, so a 9-player vector does not fit in the ciphertext
slots — the context's comment "Support up to 8 players" contradicts
`GAME_CONFIG`'s `max_players = 10`. -/
theorem create_openfhe_context_batch_bug :
    min_players ≤ 9 ∧ 9 ≤ max_players ∧
    (create_openfhe_context 9).batchSize = 8 ∧
    (create_openfhe_context 9).batchSize < 9 := by decide

/-- C6 (code bug): the human's `/investigate_parallel` (and `/relay_decrypt`)
endpoint computes a *lead* partial share, so when an agent peer (here player
1 of 4) runs the §4.H fan-out — its own lead plus each other party's
endpoint share — the fusion input contains two lead shares instead of one;
`decrypt_vector` itself (the human as requester) does fuse exactly `N = 4`
shares with exactly one lead. -/
theorem investigate_parallel_lead_bug :
    investigate_parallel_share 0 = PartialShare.lead 0 ∧
    relay_decrypt_endpoint_share 0 = PartialShare.lead 0 ∧
    lead_count (spec_fanout_shares 1
      (fun i => if i = 0 then investigate_parallel_share 0 else PartialShare.main i)
      [0, 2, 3]) = 2 ∧
    lead_count (decrypt_vector_shares 0 players4) = 1 ∧
    (decrypt_vector_shares 0 players4).length = 4 := by decide

/-- C5 (counterexample): with `N = 4` players and peer 1 failing to return a
valid partial, `parallel_decrypt` does *not* abort — it returns normally and
performs fusion on only 3 < 4 partial shares. -/
theorem parallel_decrypt_counterexample :
    parallel_decrypt 4 0 (fun i => if i = 1 then none else some (PartialShare.main i))
      = Except.ok [PartialShare.lead 0, PartialShare.main 2, PartialShare.main 3] ∧
    [PartialShare.lead 0, PartialShare.main 2, PartialShare.main 3].length < 4 := by
  exact ⟨rfl, by decide⟩

/-- The length of a `filterMap` is the number of elements mapped to `some`. -/
theorem length_filterMap_eq_countP {α β : Type} (f : α → Option β) :
    ∀ l : List α, (l.filterMap f).length = l.countP (fun x => (f x).isSome) := by
  intro l
  induction l with
  | nil => rfl
  | cons a l ih =>
    rw [List.filterMap_cons, List.countP_cons]
    cases h : f a <;> simp [h, ih]

/-- C5 (amended): `parallel_decrypt` never aborts; it always hands
`fusion_decrypt` the requester's lead share followed by one main share per
*successfully responding* peer — so with any failed peer the fusion runs on
fewer than `N` shares, and no `ReconstructionError` exists to be raised. -/
theorem parallel_decrypt_amended (num_players requester : ℕ)
    (resp : ℕ → Option PartialShare) :
    ∃ shares : List PartialShare,
      parallel_decrypt num_players requester resp = Except.ok shares ∧
      shares.head? = some (PartialShare.lead requester) ∧
      shares.length =
        1 + ((List.range num_players).filter (fun i => i ≠ requester)).countP
              (fun i => (resp i).isSome) := by
  refine ⟨_, rfl, rfl, ?_⟩
  rw [List.length_cons, length_filterMap_eq_countP]
  omega

/-- C10 (counterexample): a live agent whose `reveal_role` query returns a
*non-200* response is counted as neither mafia nor citizen — the counts for
a lone live mafia agent answering non-200 are `(0, 0)`, where the claim
predicts a citizen count of 1. -/
theorem check_win_non200_counterexample :
    win_counts false Role.citizen [⟨true, Role.mafia, RevealOutcome.non200⟩] = (0, 0) ∧
    check_win_condition false Role.citizen [⟨true, Role.mafia, RevealOutcome.non200⟩]
      = some Winner.citizens := by
  exact ⟨rfl, rfl⟩

/-- The agent loop of `check_win_condition`, from any accumulator: it adds
one mafia per `counted_mafia` agent and one citizen per `counted_citizen`
agent. -/
theorem win_counts_fold (agents : List WinAgent) :
    ∀ start : ℕ × ℕ,
      agents.foldl
        (fun mc a =>
          if a.alive then
            match a.reveal with
            | .ok r => if r = .mafia then (mc.1 + 1, mc.2) else (mc.1, mc.2 + 1)
            | .non200 => mc
            | .failed => (mc.1, mc.2 + 1)
          else mc)
        start
      = (start.1 + agents.countP counted_mafia,
         start.2 + agents.countP counted_citizen) := by
  induction agents with
  | nil => intro start; simp
  | cons a l ih =>
    intro start
    rw [List.foldl_cons, List.countP_cons, List.countP_cons, ih]
    rcases a with ⟨alive, role, reveal⟩
    cases alive with
    | false => simp [counted_mafia, counted_citizen]
    | true =>
      cases reveal with
      | ok r => cases r <;> simp [counted_mafia, counted_citizen] <;> omega
      | non200 => simp [counted_mafia, counted_citizen]
      | failed => simp [counted_mafia, counted_citizen]; omega

/-- C10 (amended): in `check_win_condition`, a live agent whose
`reveal_role` query *raises* is counted as a live citizen and never as a
mafia; a live agent answering with a non-200 status is counted as neither;
consequently under total network failure of all live agents (every query
raising) the check can declare "citizens" the winner even when live mafia
exist. -/
theorem check_win_failure_amended :
    (∀ (human_alive : Bool) (human_role : Role) (agents : List WinAgent),
      win_counts human_alive human_role agents =
        ((if human_alive ∧ human_role = .mafia then 1 else 0) +
            agents.countP counted_mafia,
         (if human_alive ∧ human_role ≠ .mafia then 1 else 0) +
            agents.countP counted_citizen)) ∧
    (∀ a : WinAgent, a.alive = true → a.reveal = .failed →
      counted_citizen a = true ∧ counted_mafia a = false) ∧
    (∀ a : WinAgent, a.reveal = .non200 →
      counted_citizen a = false ∧ counted_mafia a = false) ∧
    check_win_condition true Role.citizen [⟨true, Role.mafia, RevealOutcome.failed⟩]
      = some Winner.citizens ∧
    live_mafia_count true Role.citizen [⟨true, Role.mafia, RevealOutcome.failed⟩] = 1 := by
  refine ⟨?_, ?_, ?_, rfl, rfl⟩
  · intro hA hR agents
    rw [win_counts, win_counts_fold]
    cases hA <;> cases hR <;> simp
  · intro a ha hr; rcases a with ⟨alive, role, reveal⟩
    cases alive <;> simp_all [counted_citizen, counted_mafia]
  · intro a hr; rcases a with ⟨alive, role, reveal⟩
    cases alive <;> simp_all [counted_citizen, counted_mafia]

/-- Witness for `check_win_failure_amended`'s conditional parts at a
concrete agent whose query raised. -/
theorem check_win_failure_amended_witness :
    ((⟨true, Role.mafia, RevealOutcome.failed⟩ : WinAgent).alive = true) ∧
    (counted_citizen ⟨true, Role.mafia, RevealOutcome.failed⟩ = true ∧
      counted_mafia ⟨true, Role.mafia, RevealOutcome.failed⟩ = false) ∧
    (counted_citizen ⟨true, Role.mafia, RevealOutcome.non200⟩ = false ∧
      counted_mafia ⟨true, Role.mafia, RevealOutcome.non200⟩ = false) :=
  ⟨rfl,
    check_win_failure_amended.2.1 ⟨true, Role.mafia, RevealOutcome.failed⟩ rfl rfl,
    check_win_failure_amended.2.2.1 ⟨true, Role.mafia, RevealOutcome.non200⟩ rfl⟩

/-- When every live agent's `reveal_role` query succeeds with its actual
role, the loop counts are exactly the live mafia and live non-mafia
population. -/
theorem win_counts_eq_live_counts (human_alive : Bool) (human_role : Role)
    (agents : List WinAgent)
    (hok : ∀ a ∈ agents, a.alive = true → a.reveal = RevealOutcome.ok a.role) :
    win_counts human_alive human_role agents =
      (live_mafia_count human_alive human_role agents,
       live_nonmafia_count human_alive human_role agents) := by
  rw [win_counts, win_counts_fold, live_mafia_count, live_nonmafia_count,
    ← List.countP_eq_length_filter, ← List.countP_eq_length_filter]
  have hm : agents.countP counted_mafia
      = agents.countP (fun a => decide (a.alive = true ∧ a.role = Role.mafia)) := by
    apply List.countP_congr
    intro a ha
    rcases haa : a.alive with _ | _
    · simp [counted_mafia, haa]
    · have := hok a ha haa
      rcases a with ⟨alive, role, reveal⟩
      simp only at haa this
      subst haa this
      cases role <;> simp [counted_mafia]
  have hc : agents.countP counted_citizen
      = agents.countP (fun a => decide (a.alive = true ∧ a.role ≠ Role.mafia)) := by
    apply List.countP_congr
    intro a ha
    rcases haa : a.alive with _ | _
    · simp [counted_citizen, haa]
    · have := hok a ha haa
      rcases a with ⟨alive, role, reveal⟩
      simp only at haa this
      subst haa this
      cases role <;> simp [counted_citizen]
  rw [hm, hc]
  cases human_alive <;> cases human_role <;> simp

/-- C8: the win check returns "citizens" iff no live mafia remain;
otherwise it returns "mafia" iff the live non-mafia (citizens, doctor,
police) are at most as many as the live mafia; otherwise no winner and the
game continues (assuming every live agent's `reveal_role` query succeeds
with its actual role). -/
theorem check_win_condition_spec (human_alive : Bool) (human_role : Role)
    (agents : List WinAgent)
    (hok : ∀ a ∈ agents, a.alive = true → a.reveal = RevealOutcome.ok a.role) :
    (check_win_condition human_alive human_role agents = some .citizens ↔
      live_mafia_count human_alive human_role agents = 0) ∧
    (check_win_condition human_alive human_role agents = some .mafia ↔
      live_mafia_count human_alive human_role agents ≠ 0 ∧
        live_nonmafia_count human_alive human_role agents ≤
          live_mafia_count human_alive human_role agents) ∧
    (check_win_condition human_alive human_role agents = none ↔
      live_mafia_count human_alive human_role agents ≠ 0 ∧
        live_mafia_count human_alive human_role agents <
          live_nonmafia_count human_alive human_role agents) := by
  rw [check_win_condition, win_counts_eq_live_counts human_alive human_role agents hok]
  split_ifs with h1 h2 <;> refine ⟨?_, ?_, ?_⟩ <;> simp_all

/-- Witness for `check_win_condition_spec`: scenario 6 of the design
document — two live mafia against two live non-mafia, every reveal
succeeding, yields the mafia win by parity. -/
theorem check_win_condition_spec_witness :
    ((∀ a ∈ ([⟨true, Role.mafia, RevealOutcome.ok Role.mafia⟩,
               ⟨true, Role.mafia, RevealOutcome.ok Role.mafia⟩,
               ⟨true, Role.doctor, RevealOutcome.ok Role.doctor⟩,
               ⟨false, Role.police, RevealOutcome.non200⟩,
               ⟨false, Role.citizen, RevealOutcome.non200⟩] : List WinAgent),
        a.alive = true → a.reveal = RevealOutcome.ok a.role)) ∧
    (check_win_condition true Role.citizen
        [⟨true, Role.mafia, RevealOutcome.ok Role.mafia⟩,
         ⟨true, Role.mafia, RevealOutcome.ok Role.mafia⟩,
         ⟨true, Role.doctor, RevealOutcome.ok Role.doctor⟩,
         ⟨false, Role.police, RevealOutcome.non200⟩,
         ⟨false, Role.citizen, RevealOutcome.non200⟩] = some .mafia ↔
      live_mafia_count true Role.citizen
          [⟨true, Role.mafia, RevealOutcome.ok Role.mafia⟩,
           ⟨true, Role.mafia, RevealOutcome.ok Role.mafia⟩,
           ⟨true, Role.doctor, RevealOutcome.ok Role.doctor⟩,
           ⟨false, Role.police, RevealOutcome.non200⟩,
           ⟨false, Role.citizen, RevealOutcome.non200⟩] ≠ 0 ∧
        live_nonmafia_count true Role.citizen
            [⟨true, Role.mafia, RevealOutcome.ok Role.mafia⟩,
             ⟨true, Role.mafia, RevealOutcome.ok Role.mafia⟩,
             ⟨true, Role.doctor, RevealOutcome.ok Role.doctor⟩,
             ⟨false, Role.police, RevealOutcome.non200⟩,
             ⟨false, Role.citizen, RevealOutcome.non200⟩] ≤
          live_mafia_count true Role.citizen
            [⟨true, Role.mafia, RevealOutcome.ok Role.mafia⟩,
             ⟨true, Role.mafia, RevealOutcome.ok Role.mafia⟩,
             ⟨true, Role.doctor, RevealOutcome.ok Role.doctor⟩,
             ⟨false, Role.police, RevealOutcome.non200⟩,
             ⟨false, Role.citizen, RevealOutcome.non200⟩]) :=
  ⟨by decide,
    (check_win_condition_spec true Role.citizen _ (by decide)).2.1⟩

/-- `getD` of a `zipWith` at an in-bounds index is the function of the two
`getD`s, for any defaults. -/
theorem zipWith_getD {α β γ : Type} (f : α → β → γ) (d₁ : α) (d₂ : β) (d₃ : γ) :
    ∀ (l₁ : List α) (l₂ : List β) (k : ℕ), k < l₁.length → k < l₂.length →
      (List.zipWith f l₁ l₂).getD k d₃ = f (l₁.getD k d₁) (l₂.getD k d₂) := by
  intro l₁
  induction l₁ with
  | nil => intro l₂ k h1 _; simp at h1
  | cons a l ih =>
    intro l₂ k h1 h2
    cases l₂ with
    | nil => simp at h2
    | cons b m =>
      cases k with
      | zero => rfl
      | succ n =>
        simp only [List.zipWith_cons_cons, List.getD_cons_succ]
        exact ih m n (by simpa using h1) (by simpa using h2)

/-- `compute_killed_vector` is the slot-wise product `A ⊙ (1 - H)`. -/
theorem compute_killed_vector_eq :
    ∀ A H : List ℤ, compute_killed_vector A H H.length
      = List.zipWith (fun a h => a * (1 - h)) A H := by
  intro A
  induction A with
  | nil => intro H; rfl
  | cons a as ih =>
    intro H
    cases H with
    | nil => rfl
    | cons h hs =>
      show (a * (-h + 1)) :: compute_killed_vector as hs hs.length
          = (a * (1 - h)) :: List.zipWith (fun a h => a * (1 - h)) as hs
      rw [ih hs]
      congr 1
      ring

/-- C1: for aggregated attack `A` and heal `H` over `N` slots with
`H[k] ∈ {0,1}`, the night-phase killed vector is `A ⊙ (1 - H)` slot-wise,
slot `k` satisfies `killed[k] ≥ 1` iff `A[k] ≥ 1` and `H[k] = 0`, and a
player `k` flips `alive` exactly when `killed[k] ≥ 1` and it was alive. -/
theorem compute_killed_vector_spec (A H : List ℤ) (players : List Player)
    (N k : ℕ) (hA : A.length = N) (hH : H.length = N)
    (hP : players.length = N) (hk : k < N)
    (hbits : ∀ x ∈ H, x = 0 ∨ x = 1) :
    compute_killed_vector A H N = List.zipWith (fun a h => a * (1 - h)) A H ∧
    (1 ≤ (compute_killed_vector A H N).getD k 0 ↔
      1 ≤ A.getD k 0 ∧ H.getD k 0 = 0) ∧
    (((apply_killed_vector (compute_killed_vector A H N) players).getD k
          default).alive
        ≠ (players.getD k default).alive ↔
      1 ≤ (compute_killed_vector A H N).getD k 0 ∧
        (players.getD k default).alive = true) := by
  subst hH
  have heq := compute_killed_vector_eq A H
  have hklen : k < (compute_killed_vector A H H.length).length := by
    rw [heq, List.length_zipWith]; omega
  refine ⟨heq, ?_, ?_⟩
  · rw [heq, zipWith_getD _ 0 0 0 A H k (by omega) (by omega)]
    have hx : H.getD k 0 = 0 ∨ H.getD k 0 = 1 := by
      apply hbits
      rw [List.getD_eq_getElem H 0 (by omega : k < H.length)]
      exact List.getElem_mem _
    rcases hx with h0 | h1
    · rw [h0]; norm_num
    · rw [h1]; norm_num
  · rw [apply_killed_vector,
      zipWith_getD _ 0 default default (compute_killed_vector A H H.length)
        players k hklen (by omega)]
    by_cases hc :
        0 < (compute_killed_vector A H H.length).getD k 0 ∧
          (players.getD k default).alive
    · rw [if_pos hc]
      rcases hc with ⟨h1, h2⟩
      constructor
      · intro _; exact ⟨by omega, h2⟩
      · intro _
        show (false : Bool) ≠ (players.getD k default).alive
        rw [h2]
        decide
    · rw [if_neg hc]
      simp only [ne_eq, not_true_eq_false, false_iff, not_and]
      intro h1 h2
      exact hc ⟨by omega, h2⟩

/-- Witness for `compute_killed_vector_spec`: two mafia attack player 2, a
doctor heals player 0, slot `k = 2` of four. -/
theorem compute_killed_vector_spec_witness :
    compute_killed_vector [1, 0, 2, 0] [1, 0, 0, 0] 4
        = List.zipWith (fun a h => a * (1 - h)) [1, 0, 2, 0] [1, 0, 0, 0] ∧
    (1 ≤ (compute_killed_vector [1, 0, 2, 0] [1, 0, 0, 0] 4).getD 2 0 ↔
      1 ≤ ([1, 0, 2, 0] : List ℤ).getD 2 0 ∧
        ([1, 0, 0, 0] : List ℤ).getD 2 0 = 0) ∧
    (((apply_killed_vector (compute_killed_vector [1, 0, 2, 0] [1, 0, 0, 0] 4)
          players4).getD 2 default).alive
        ≠ (players4.getD 2 default).alive ↔
      1 ≤ (compute_killed_vector [1, 0, 2, 0] [1, 0, 0, 0] 4).getD 2 0 ∧
        (players4.getD 2 default).alive = true) :=
  compute_killed_vector_spec [1, 0, 2, 0] [1, 0, 0, 0] players4 4 2
    rfl rfl rfl (by omega) (by decide)

/-- A left fold of `max` lands on the seed or a list element. -/
theorem foldl_max_mem : ∀ (l : List ℤ) (a : ℤ), l.foldl max a ∈ a :: l := by
  intro l
  induction l with
  | nil => intro a; simp
  | cons b m ih =>
    intro a
    rw [List.foldl_cons]
    rcases List.mem_cons.mp (ih (max a b)) with h1 | h1
    · rw [h1]
      rcases max_choice a b with h | h <;> rw [h] <;> simp
    · exact List.mem_cons_of_mem a (List.mem_cons_of_mem b h1)

/-- A left fold of `max` bounds the seed and every list element. -/
theorem le_foldl_max : ∀ (l : List ℤ) (a x : ℤ), x ∈ a :: l → x ≤ l.foldl max a := by
  intro l
  induction l with
  | nil => intro a x hx; rw [List.mem_singleton] at hx; simp [hx]
  | cons b m ih =>
    intro a x hx
    rw [List.foldl_cons]
    rcases List.mem_cons.mp hx with h | h
    · subst h
      exact le_trans (le_max_left x b) (ih (max x b) _ (List.mem_cons_self _ _))
    · rcases List.mem_cons.mp h with h2 | h2
      · subst h2
        exact le_trans (le_max_right a x) (ih (max a x) _ (List.mem_cons_self _ _))
      · exact ih (max a b) x (List.mem_cons_of_mem _ h2)

/-- `max(V)` is attained by some slot of a nonempty `V`. -/
theorem max_votes_mem (V : List ℤ) (h : V ≠ []) : max_votes V ∈ V := by
  cases V with
  | nil => exact absurd rfl h
  | cons a l =>
    rw [max_votes]
    simp only [List.headD_cons, List.foldl_cons, max_self]
    exact foldl_max_mem l a

/-- `max(V)` bounds every slot of `V`. -/
theorem le_max_votes (V : List ℤ) (x : ℤ) (hx : x ∈ V) : x ≤ max_votes V := by
  cases V with
  | nil => simp at hx
  | cons a l =>
    rw [max_votes]
    simp only [List.headD_cons, List.foldl_cons, max_self]
    exact le_foldl_max l a x hx

/-- Python's `list.index`: the returned position is in range, holds the
value, and no earlier position does. -/
theorem py_index_spec (x : ℤ) : ∀ V : List ℤ, x ∈ V →
    py_index V x < V.length ∧ V.getD (py_index V x) 0 = x ∧
      ∀ j < py_index V x, V.getD j 0 ≠ x := by
  intro V
  induction V with
  | nil => intro h; simp at h
  | cons a l ih =>
    intro hx
    by_cases ha : a = x
    · rw [py_index, if_pos ha]
      exact ⟨by simp, by simpa using ha, by omega⟩
    · rw [py_index, if_neg ha]
      have hxl : x ∈ l := by
        rcases List.mem_cons.mp hx with h | h
        · exact absurd h.symm ha
        · exact h
      obtain ⟨h1, h2, h3⟩ := ih hxl
      refine ⟨by simp; omega, by simpa using h2, ?_⟩
      intro j hj
      cases j with
      | zero => simpa using ha
      | succ n =>
        simp only [List.getD_cons_succ]
        exact h3 n (by omega)

/-- `set_dead` preserves the roster length. -/
theorem set_dead_length : ∀ (ps : List Player) (e : ℕ),
    (set_dead ps e).length = ps.length := by
  intro ps
  induction ps with
  | nil => intro e; rfl
  | cons p l ih =>
    intro e
    cases e with
    | zero => rfl
    | succ n => simp [set_dead, ih n]

/-- `set_dead` clears the `alive` flag at the targeted in-range position. -/
theorem set_dead_getD_self : ∀ (ps : List Player) (e : ℕ), e < ps.length →
    ((set_dead ps e).getD e default).alive = false := by
  intro ps
  induction ps with
  | nil => intro e h; simp at h
  | cons p l ih =>
    intro e h
    cases e with
    | zero => rfl
    | succ n => exact ih n (by simpa using h)

/-- `set_dead` leaves every other position untouched. -/
theorem set_dead_getD_ne : ∀ (ps : List Player) (e j : ℕ), j ≠ e →
    (set_dead ps e).getD j default = ps.getD j default := by
  intro ps
  induction ps with
  | nil => intro e j _; cases e <;> rfl
  | cons p l ih =>
    intro e j hj
    cases e with
    | zero =>
      cases j with
      | zero => exact absurd rfl hj
      | succ m => rfl
    | succ n =>
      cases j with
      | zero => rfl
      | succ m =>
        simp only [set_dead, List.getD_cons_succ]
        exact ih n m (by omega)

/-- Membership in `max_vote_players`: an in-range index whose count attains
the maximum. -/
theorem mem_max_vote_players (V : List ℤ) (i : ℕ) :
    i ∈ max_vote_players V ↔ i < V.length ∧ V.getD i 0 = max_votes V := by
  rw [max_vote_players]
  simp [List.mem_filter, List.mem_range]

/-- C2: for a decrypted vote-count vector `V` (entries are nonnegative sums
of 0/1 votes): if `max(V) = 0` or more than one index attains the maximum,
no player's `alive` flag changes and `last_voted_out` is `none`; otherwise
the unique index `k` attaining the maximum has `alive` set to `false`,
becomes `last_voted_out`, and every other player is unchanged. -/
theorem execute_vote_phase_spec (V : List ℤ) (players : List Player)
    (hne : V ≠ []) (hlen : V.length = players.length)
    (hnn : ∀ x ∈ V, 0 ≤ x) :
    (max_votes V = 0 ∨ 1 < (max_vote_players V).length →
      execute_vote_tally V players = (players, none)) ∧
    (¬(max_votes V = 0 ∨ 1 < (max_vote_players V).length) →
      ∃ k, max_vote_players V = [k] ∧
        execute_vote_tally V players = (set_dead players k, some k) ∧
        ((set_dead players k).getD k default).alive = false ∧
        ∀ j, j ≠ k → (set_dead players k).getD j default = players.getD j default) := by
  have hmax_nn : 0 ≤ max_votes V := hnn _ (max_votes_mem V hne)
  constructor
  · intro h
    rw [execute_vote_tally, if_neg]
    rintro ⟨h1, h2⟩
    rcases h with h | h
    · omega
    · exact h2 h
  · intro h
    push_neg at h
    obtain ⟨hmne, htle⟩ := h
    have hmpos : 0 < max_votes V := lt_of_le_of_ne hmax_nn (Ne.symm hmne)
    obtain ⟨hilt, hival, _⟩ := py_index_spec (max_votes V) V (max_votes_mem V hne)
    have hkmem : py_index V (max_votes V) ∈ max_vote_players V :=
      (mem_max_vote_players V _).mpr ⟨hilt, hival⟩
    have hsingle : max_vote_players V = [py_index V (max_votes V)] := by
      rcases hml : max_vote_players V with _ | ⟨a, rest⟩
      · rw [hml] at hkmem; simp at hkmem
      · rw [hml] at hkmem htle
        cases rest with
        | cons b r => simp at htle
        | nil =>
          rw [List.mem_singleton] at hkmem
          rw [hkmem]
    refine ⟨py_index V (max_votes V), hsingle, ?_, ?_, ?_⟩
    · rw [execute_vote_tally, if_pos ⟨hmpos, by omega⟩]
    · exact set_dead_getD_self players _ (by omega)
    · intro j hj
      exact set_dead_getD_ne players _ j hj

/-- Witness for `execute_vote_phase_spec`: scenario 4 of the design
document — counts `[0,3,1,0,1]` over five players eliminate player 1 —
instantiated through the theorem. -/
theorem execute_vote_phase_spec_witness :
    (max_votes [0, 3, 1, 0, 1] = 0 ∨
        1 < (max_vote_players [0, 3, 1, 0, 1]).length →
      execute_vote_tally [0, 3, 1, 0, 1]
          [⟨0, true, true⟩, ⟨1, false, true⟩, ⟨2, false, true⟩,
            ⟨3, false, true⟩, ⟨4, false, true⟩]
        = ([⟨0, true, true⟩, ⟨1, false, true⟩, ⟨2, false, true⟩,
            ⟨3, false, true⟩, ⟨4, false, true⟩], none)) ∧
    (¬(max_votes [0, 3, 1, 0, 1] = 0 ∨
        1 < (max_vote_players [0, 3, 1, 0, 1]).length) →
      ∃ k, max_vote_players [0, 3, 1, 0, 1] = [k] ∧
        execute_vote_tally [0, 3, 1, 0, 1]
            [⟨0, true, true⟩, ⟨1, false, true⟩, ⟨2, false, true⟩,
              ⟨3, false, true⟩, ⟨4, false, true⟩]
          = (set_dead
              [⟨0, true, true⟩, ⟨1, false, true⟩, ⟨2, false, true⟩,
                ⟨3, false, true⟩, ⟨4, false, true⟩] k, some k) ∧
        ((set_dead
            [⟨0, true, true⟩, ⟨1, false, true⟩, ⟨2, false, true⟩,
              ⟨3, false, true⟩, ⟨4, false, true⟩] k).getD k default).alive
          = false ∧
        ∀ j, j ≠ k →
          (set_dead
              [⟨0, true, true⟩, ⟨1, false, true⟩, ⟨2, false, true⟩,
                ⟨3, false, true⟩, ⟨4, false, true⟩] k).getD j default
            = [⟨0, true, true⟩, ⟨1, false, true⟩, ⟨2, false, true⟩,
                ⟨3, false, true⟩, ⟨4, false, true⟩].getD j default) :=
  execute_vote_phase_spec [0, 3, 1, 0, 1]
    [⟨0, true, true⟩, ⟨1, false, true⟩, ⟨2, false, true⟩,
      ⟨3, false, true⟩, ⟨4, false, true⟩]
    (by decide) (by decide) (by decide)

/-- `one_hot_to_role` inverts `role_to_one_hot`. -/
theorem one_hot_roundtrip (r : Role) :
    one_hot_to_role (role_to_one_hot r) = some r := by
  cases r <;> decide

/-- Decoding the encrypted role list recovers the shuffled role list. -/
theorem generate_encrypted_roles_decode (shuffled : List Role) :
    (generate_encrypted_roles shuffled).filterMap (fun c => one_hot_to_role c.vec)
      = shuffled := by
  induction shuffled with
  | nil => rfl
  | cons r l ih =>
    simp only [generate_encrypted_roles, List.map_cons, List.filterMap_cons] at *
    rw [one_hot_roundtrip r, ih]

/-- The role list built from the distribution table has exactly `N`
entries, for every supported `N`. -/
theorem build_roles_length (N : ℕ) (roles : List Role)
    (h4 : 4 ≤ N) (h10 : N ≤ 10) (hb : build_roles N = some roles) :
    roles.length = N := by
  interval_cases N <;> simp_all [build_roles, role_distribution] <;>
    subst hb <;> rfl

/-- C4: for every supported player count `N`, `generate_encrypted_roles` —
which shuffles the table's role list into some permutation `shuffled` and
encrypts each one-hot — produces exactly `N` encrypted role vectors whose
underlying multiset of roles equals the closed distribution-table row for
`N` (the multiset of `build_roles N`). -/
theorem generate_encrypted_roles_spec (N : ℕ) (roles shuffled : List Role)
    (h4 : 4 ≤ N) (h10 : N ≤ 10)
    (hb : build_roles N = some roles) (hp : shuffled.Perm roles) :
    (generate_encrypted_roles shuffled).length = N ∧
    ((generate_encrypted_roles shuffled).filterMap
        (fun c => one_hot_to_role c.vec) : Multiset Role)
      = (roles : Multiset Role) ∧
    (shuffled : Multiset Role) = (roles : Multiset Role) := by
  have hlen := build_roles_length N roles h4 h10 hb
  have hms : (shuffled : Multiset Role) = (roles : Multiset Role) :=
    Multiset.coe_eq_coe.mpr hp
  refine ⟨?_, ?_, hms⟩
  · rw [generate_encrypted_roles, List.length_map, hp.length_eq, hlen]
  · rw [generate_encrypted_roles_decode shuffled]
    exact hms

/-- Witness for `generate_encrypted_roles_spec` at `N = 4` with the
reversed table row as the shuffle. -/
theorem generate_encrypted_roles_spec_witness :
    (generate_encrypted_roles
        [Role.citizen, Role.police, Role.doctor, Role.mafia]).length = 4 ∧
    ((generate_encrypted_roles
        [Role.citizen, Role.police, Role.doctor, Role.mafia]).filterMap
        (fun c => one_hot_to_role c.vec) : Multiset Role)
      = ([Role.mafia, Role.doctor, Role.police, Role.citizen] : Multiset Role) ∧
    (([Role.citizen, Role.police, Role.doctor, Role.mafia] : List Role) : Multiset Role)
      = ([Role.mafia, Role.doctor, Role.police, Role.citizen] : Multiset Role) :=
  generate_encrypted_roles_spec 4
    [Role.mafia, Role.doctor, Role.police, Role.citizen]
    [Role.citizen, Role.police, Role.doctor, Role.mafia]
    (by omega) (by omega) rfl (by decide)

/-- `getD` after `set` at a different index is unchanged. -/
theorem getD_set_ne {α : Type} (d : α) :
    ∀ (l : List α) (i j : ℕ) (x : α), i ≠ j →
      (l.set i x).getD j d = l.getD j d := by
  intro l
  induction l with
  | nil => intro i j x _; rfl
  | cons a m ih =>
    intro i j x hij
    cases i with
    | zero =>
      cases j with
      | zero => exact absurd rfl hij
      | succ n => rfl
    | succ k =>
      cases j with
      | zero => rfl
      | succ n =>
        show (m.set k x).getD n d = m.getD n d
        exact ih k n x (by omega)

/-- `getD` after `set` at the same in-range index is the new value. -/
theorem getD_set_self {α : Type} (d : α) :
    ∀ (l : List α) (i : ℕ) (x : α), i < l.length →
      (l.set i x).getD i d = x := by
  intro l
  induction l with
  | nil => intro i x h; simp at h
  | cons a m ih =>
    intro i x h
    cases i with
    | zero => rfl
    | succ k =>
      show (m.set k x).getD k d = x
      exact ih k x (by simpa using h)

/-- The agent-result loop of `collector_slots` preserves the slot count. -/
theorem fold_collect_length (g : Player → Option Triplet) :
    ∀ (agents : List Player) (acc : List (Option Triplet)),
      (agents.foldl (fun a p => a.set p.index (g p)) acc).length = acc.length := by
  intro agents
  induction agents with
  | nil => intro acc; rfl
  | cons p l ih =>
    intro acc
    rw [List.foldl_cons, ih, List.length_set]

/-- The agent-result loop leaves a slot untouched that no agent indexes. -/
theorem fold_collect_getD_untouched (g : Player → Option Triplet) :
    ∀ (agents : List Player) (acc : List (Option Triplet)) (j : ℕ),
      (∀ p ∈ agents, p.index ≠ j) →
      (agents.foldl (fun a p => a.set p.index (g p)) acc).getD j none
        = acc.getD j none := by
  intro agents
  induction agents with
  | nil => intro acc j _; rfl
  | cons q l ih =>
    intro acc j h
    rw [List.foldl_cons, ih _ j (fun p hp => h p (List.mem_cons_of_mem q hp))]
    exact getD_set_ne none acc q.index j _ (h q (List.mem_cons_self q l))

/-- With pairwise-distinct agent indices, the agent-result loop writes each
member's slot exactly once. -/
theorem fold_collect_getD_once (g : Player → Option Triplet) :
    ∀ (agents : List Player) (acc : List (Option Triplet)) (p : Player),
      p ∈ agents → (agents.map (fun q => q.index)).Nodup →
      p.index < acc.length →
      (agents.foldl (fun a q => a.set q.index (g q)) acc).getD p.index none
        = g p := by
  intro agents
  induction agents with
  | nil => intro acc p hp _ _; simp at hp
  | cons q l ih =>
    intro acc p hp hnd hlt
    rw [List.map_cons, List.nodup_cons] at hnd
    obtain ⟨hqnot, hndl⟩ := hnd
    rw [List.foldl_cons]
    rcases List.mem_cons.mp hp with h | h
    · subst h
      rw [fold_collect_getD_untouched g l _ p.index
        (fun r hr he => hqnot (he ▸ List.mem_map_of_mem _ hr))]
      exact getD_set_self none acc p.index (g p) hlt
    · exact ih _ p h hndl (by rw [List.length_set]; exact hlt)

/-- `getD` through the final zero-fill `map` of `collect_all_actions`. -/
theorem getD_map_fill (z : Triplet) :
    ∀ (l : List (Option Triplet)) (j : ℕ), j < l.length →
      (l.map (fun o => o.getD z)).getD j z = (l.getD j none).getD z := by
  intro l
  induction l with
  | nil => intro j h; simp at h
  | cons a m ih =>
    intro j h
    cases j with
    | zero => rfl
    | succ k =>
      show (m.map (fun o => o.getD z)).getD k z = (m.getD k none).getD z
      exact ih k (by simpa using h)

/-- `collector_slots` has exactly `num_players` slots. -/
theorem collector_slots_length (num_players human_player_index : ℕ)
    (players : List Player) (phase : Phase) (human_triplet : Triplet)
    (agent_result : ℕ → Option Triplet) :
    (collector_slots num_players human_player_index players phase
        human_triplet agent_result).length = num_players := by
  rw [collector_slots, fold_collect_length, List.length_set,
    List.length_replicate]

/-- C7: `collect_all_actions` returns vote/attack/heal entries for all
`num_players` slots with none missing; a dead human (or a phase with no
action) contributes the zero triplet, and so does every agent whose request
is missing or errored — the collection always completes with full lists.
Hypotheses: the human's index is in range, player indices are pairwise
distinct, and agents carry in-range non-human indices (the engine builds
the roster this way, main.py lines 96-98). -/
theorem collect_all_actions_spec (num_players human_player_index : ℕ)
    (players : List Player) (phase : Phase) (human_triplet : Triplet)
    (agent_result : ℕ → Option Triplet)
    (hh : human_player_index < num_players)
    (hnd : (players.map (fun p => p.index)).Nodup)
    (hrange : ∀ p ∈ players, p.is_human = false → p.index < num_players)
    (hnh : ∀ p ∈ players, p.is_human = false →
      p.index ≠ human_player_index) :
    (collect_all_actions num_players human_player_index players phase
        human_triplet agent_result).length = num_players ∧
    ((collect_all_actions num_players human_player_index players phase
        human_triplet agent_result).map Triplet.vote).length = num_players ∧
    ((collect_all_actions num_players human_player_index players phase
        human_triplet agent_result).map Triplet.attack).length = num_players ∧
    ((collect_all_actions num_players human_player_index players phase
        human_triplet agent_result).map Triplet.heal).length = num_players ∧
    (¬((players.getD human_player_index default).alive ∧
        (phase = .night ∨ phase = .vote)) →
      (collect_all_actions num_players human_player_index players phase
          human_triplet agent_result).getD human_player_index
          (zero_triplet num_players)
        = zero_triplet num_players) ∧
    (∀ p ∈ players, p.is_human = false → agent_result p.index = none →
      (collect_all_actions num_players human_player_index players phase
          human_triplet agent_result).getD p.index (zero_triplet num_players)
        = zero_triplet num_players) := by
  have hslots := collector_slots_length num_players human_player_index
    players phase human_triplet agent_result
  have hlen : (collect_all_actions num_players human_player_index players
      phase human_triplet agent_result).length = num_players := by
    rw [collect_all_actions, List.length_map, hslots]
  have hndf : ((players.filter (fun p => !p.is_human)).map
      (fun q => q.index)).Nodup :=
    (((List.filter_sublist players).map (fun q => q.index)).nodup hnd)
  refine ⟨hlen, ?_, ?_, ?_, ?_, ?_⟩
  · rw [List.length_map, hlen]
  · rw [List.length_map, hlen]
  · rw [List.length_map, hlen]
  · intro hdead
    rw [collect_all_actions,
      getD_map_fill _ _ human_player_index (by rw [hslots]; exact hh),
      collector_slots,
      fold_collect_getD_untouched _ _ _ human_player_index
        (fun p hp => hnh p (List.mem_filter.mp hp).1
          (by simpa using (List.mem_filter.mp hp).2)),
      getD_set_self _ _ _ _
        (by rw [List.length_replicate]; exact hh),
      collector_human_triplet, if_neg hdead]
    rfl
  · intro p hp hph hres
    have hpf : p ∈ players.filter (fun q => !q.is_human) :=
      List.mem_filter.mpr ⟨hp, by simp [hph]⟩
    rw [collect_all_actions,
      getD_map_fill _ _ p.index (by rw [hslots]; exact hrange p hp hph),
      collector_slots,
      fold_collect_getD_once _ _ _ p hpf hndf
        (by rw [List.length_set, List.length_replicate]
            exact hrange p hp hph),
      hres]
    rfl

/-- Witness for `collect_all_actions_spec`: three players, night phase,
agent 2's request errored. -/
theorem collect_all_actions_spec_witness :
    (collect_all_actions 3 0
        [⟨0, true, true⟩, ⟨1, false, true⟩, ⟨2, false, true⟩] Phase.night
        ⟨⟨[9, 9, 9]⟩, ⟨[9, 9, 9]⟩, ⟨[9, 9, 9]⟩⟩
        (fun i => if i = 2 then none
                  else some ⟨⟨[1, 0, 0]⟩, ⟨[0, 1, 0]⟩, ⟨[0, 0, 1]⟩⟩)).length
      = 3 ∧
    (collect_all_actions 3 0
        [⟨0, true, true⟩, ⟨1, false, true⟩, ⟨2, false, true⟩] Phase.night
        ⟨⟨[9, 9, 9]⟩, ⟨[9, 9, 9]⟩, ⟨[9, 9, 9]⟩⟩
        (fun i => if i = 2 then none
                  else some ⟨⟨[1, 0, 0]⟩, ⟨[0, 1, 0]⟩, ⟨[0, 0, 1]⟩⟩)).getD 2
        (zero_triplet 3)
      = zero_triplet 3 :=
  have h := collect_all_actions_spec 3 0
    [⟨0, true, true⟩, ⟨1, false, true⟩, ⟨2, false, true⟩] Phase.night
    ⟨⟨[9, 9, 9]⟩, ⟨[9, 9, 9]⟩, ⟨[9, 9, 9]⟩⟩
    (fun i => if i = 2 then none
              else some ⟨⟨[1, 0, 0]⟩, ⟨[0, 1, 0]⟩, ⟨[0, 0, 1]⟩⟩)
    (by omega) (by decide) (by decide) (by decide)
  ⟨h.1, h.2.2.2.2.2 ⟨2, false, true⟩ (by decide) rfl rfl⟩

end Mafia
